import Mathlib

/-!
Verification of the chunking / extraction / orchestration pipeline of
`scripts/trans-vi.py` (wwm_locale repository).

The Python script is embedded shallowly:

* JSON values (`dict`, `list`, `str`, `int`/`float`, `true`/`false`/`null`,
  plus the `NaN`/`Infinity` constants accepted by Python's `json.loads`)
  become the inductive type `JValue`.  A Python `dict` is an ordered
  association list (insertion order, unique keys).
* `json.dumps(..., ensure_ascii=False)` becomes `dumps`; float serialization
  (IEEE-754 shortest decimal repr) is idealized by exact rationals, which is
  irrelevant for every claim below (claims never serialize float leaves).
* Byte sizes use UTF-8 encoded length; Python's float division by 2^20 is
  exact for all realistic sizes (division by a power of two), so sizes are
  exact rationals.
* `json.loads` becomes the fuel-indexed recursive-descent decoder
  `json_loads`, mirroring CPython's scanner: JSON whitespace, strict strings,
  `\uXXXX` escapes with surrogate pairs (a lone surrogate, which Lean `Char`
  cannot represent, is idealized as U+FFFD), number grammar, the `NaN` /
  `Infinity` / `-Infinity` constants, duplicate object keys resolved by
  dict-update semantics, and the trailing "Extra data" check.
-/

/-- JSON values as handled by Python's `json` module.  `jnum q f` carries an
exact rational and a flag recording whether the literal was a float (had a
fraction or an exponent part). -/
inductive JValue where
  | jnull
  | jbool (b : Bool)
  | jnum (q : ℚ) (isFloat : Bool)
  | jstr (s : String)
  | jarr (elems : List JValue)
  | jobj (entries : List (String × JValue))
  | jnan
  | jinf
  | jninf

/-- A record store: a Python dict from string keys to JSON values, in
insertion order. -/
abbrev Store := List (String × JValue)

/-- Serialization of one character inside a JSON string literal, as done by
`json.dumps(..., ensure_ascii=False)`: escape the quote, the backslash and
control characters (with the usual shorthands), keep everything else raw. -/
def escChar (c : Char) : String :=
  if c = '"' then "\\\""
  else if c = '\\' then "\\\\"
  else if c = '\n' then "\\n"
  else if c = '\t' then "\\t"
  else if c = '\r' then "\\r"
  else if c = '\u0008' then "\\b"
  else if c = '\u000C' then "\\f"
  else if c.toNat < 32 then
    "\\u00" ++ String.mk [Nat.digitChar (c.toNat / 16), Nat.digitChar (c.toNat % 16)]
  else String.mk [c]

/-- `json.dumps` of a string value. -/
def dumpStr (s : String) : String :=
  "\"" ++ String.join (s.data.map escChar) ++ "\""

/-- Stand-in for Python's float repr (shortest-decimal IEEE-754); exact
rationals are carried instead.  Never reached by any claim below. -/
def dumpFloat (q : ℚ) : String :=
  toString q.num ++ "e" ++ toString q.den

mutual

/-- `json.dumps(v, ensure_ascii=False)` with the default separators
`(", ", ": ")`. -/
def dumps : JValue → String
  | .jnull => "null"
  | .jbool true => "true"
  | .jbool false => "false"
  | .jnum q false => toString q.num
  | .jnum q true => dumpFloat q
  | .jstr s => dumpStr s
  | .jarr xs => "[" ++ dumpsArr xs ++ "]"
  | .jobj es => "\x7b" ++ dumpsObj es ++ "\x7d"
  | .jnan => "NaN"
  | .jinf => "Infinity"
  | .jninf => "-Infinity"

/-- Comma-joined serialization of array elements. -/
def dumpsArr : List JValue → String
  | [] => ""
  | [x] => dumps x
  | x :: y :: rest => dumps x ++ ", " ++ dumpsArr (y :: rest)

/-- Comma-joined serialization of object entries (`"key": value`). -/
def dumpsObj : List (String × JValue) → String
  | [] => ""
  | [(k, v)] => dumpStr k ++ ": " ++ dumps v
  | (k, v) :: e :: rest => dumpStr k ++ ": " ++ dumps v ++ ", " ++ dumpsObj (e :: rest)

end

/-- `len(text.encode('utf-8'))`: the UTF-8 byte length of a string. -/
def utf8Len (s : String) : Nat :=
  (s.data.map (fun c => c.utf8Size)).sum

/-- `estimate_text_size_mb` (trans-vi.py lines 32-34):
`len(text.encode('utf-8')) / (1024 * 1024)`.  The Python float division by
`2^20` is exact, so the result is the exact rational (written with `mkRat`
so that it evaluates by kernel reduction; see
`estimate_text_size_mb_eq`). -/
def estimate_text_size_mb (text : String) : ℚ :=
  mkRat (Int.ofNat (utf8Len text)) (1024 * 1024)

lemma estimate_text_size_mb_eq (text : String) :
    estimate_text_size_mb text = (utf8Len text : ℚ) / (1024 * 1024) := by
  unfold estimate_text_size_mb
  rw [Rat.mkRat_eq_div]
  norm_num

/-- `MAX_CHUNK_SIZE_MB` (line 18). -/
def MAX_CHUNK_SIZE_MB : ℚ := 4

/-- The standalone size of one entry: `estimate_text_size_mb(json.dumps(
\x7bkey: value\x7d, ensure_ascii=False))` as computed at lines 44-45. -/
def itemSize (e : String × JValue) : ℚ :=
  estimate_text_size_mb (dumps (.jobj [e]))

/-- The running `current_size` of a chunk: the sum of its entries' standalone
sizes. -/
def chunkSizeSum (c : Store) : ℚ :=
  (c.map itemSize).sum

/-- The loop of `split_json_into_chunks` (lines 43-63), with the running
chunk and running size as explicit state. -/
def splitGo (max_size_mb : ℚ) : List (String × JValue) → Store → ℚ → List Store
  | [], current_chunk, _ =>
      if current_chunk.isEmpty then [] else [current_chunk]
  | e :: rest, current_chunk, current_size =>
      if itemSize e > max_size_mb then
        splitGo max_size_mb rest current_chunk current_size
      else if current_size + itemSize e > max_size_mb ∧ current_chunk.isEmpty = false then
        current_chunk :: splitGo max_size_mb rest [e] (itemSize e)
      else
        splitGo max_size_mb rest (current_chunk ++ [e]) (current_size + itemSize e)

/-- `split_json_into_chunks` (trans-vi.py lines 37-65): split a dict into
chunks whose accumulated entry sizes stay within `max_size_mb`, skipping any
single oversized entry (the Python warning print is a side effect with no
data flow and is not modelled). -/
def split_json_into_chunks (data : Store) (max_size_mb : ℚ := MAX_CHUNK_SIZE_MB) :
    List Store :=
  splitGo max_size_mb data [] 0

/-- Matcher for the regex `^(.+?)_(\d+)\.json$` applied after at least one
character of the lazy group has been consumed: walk the string looking for
the leftmost underscore whose remainder is digits followed by exactly
`.json`; returns the digit group.  (`\d` is modelled as ASCII digits — the C
scanner of `re` for these inputs — and `$` as end of string, which agrees
with Python on every filename that ends in `.json`.) -/
def digitsDotJson (cs : List Char) : Option (List Char) :=
  let ds := cs.takeWhile (fun c => c.isDigit)
  let rest := cs.dropWhile (fun c => c.isDigit)
  if ds ≠ [] ∧ rest = ".json".data then some ds else none

/-- Scan for the leftmost viable underscore (the `.+?` lazy group extends one
character at a time; `.` does not match a newline). -/
def numGo : List Char → Option (List Char)
  | [] => none
  | c :: tail =>
      match (if c = '_' then digitsDotJson tail else none) with
      | some ds => some ds
      | none => if c = '\n' then none else numGo tail

/-- `re.match(r"^(.+?)_(\d+)\.json$", filename)`, returning `group(2)`. -/
def numSuffixMatch : List Char → Option (List Char)
  | [] => none
  | a :: rest => if a = '\n' then none else numGo rest

/-- `replace_filename_pattern` (trans-vi.py lines 21-29). -/
def replace_filename_pattern (filename : String) ( out_prefix : String) : String :=
  match numSuffixMatch filename.data with
  | some ds => "p" ++ out_prefix ++ "_" ++ String.mk ds ++ ".json"
  | none => filename

/-- Destination filename computed by the main loop (lines 220-228):
`replace_filename_pattern`, falling back to the `t<run>_<name>` form when the
result is unchanged. -/
def dest_filename (run_at filename : String) : String :=
  let new_filename := replace_filename_pattern filename run_at
  if new_filename = filename then "t" ++ run_at ++ "_" ++ filename
  else new_filename

/-- JSON whitespace skipped by the scanner: space, tab, newline, return. -/
def jwhite (c : Char) : Bool :=
  c = ' ' || c = '\t' || c = '\n' || c = '\r'

/-- Skip JSON whitespace. -/
def skipWs (cs : List Char) : List Char := cs.dropWhile jwhite

/-- Value of one hexadecimal digit. -/
def hexVal (c : Char) : Option Nat :=
  if '0' ≤ c ∧ c ≤ '9' then some (c.toNat - 48)
  else if 'a' ≤ c ∧ c ≤ 'f' then some (c.toNat - 87)
  else if 'A' ≤ c ∧ c ≤ 'F' then some (c.toNat - 55)
  else none

/-- Exactly four hexadecimal digits (the `XXXX` of a `\uXXXX` escape). -/
def parseHex4 : List Char → Option (Nat × List Char)
  | a :: b :: c :: d :: rest =>
    match hexVal a, hexVal b, hexVal c, hexVal d with
    | some x, some y, some z, some w => some (((x * 16 + y) * 16 + z) * 16 + w, rest)
    | _, _, _, _ => none
  | _ => none

/-- A decoded code point as a Lean character.  A lone surrogate — legal in a
Python `str`, unrepresentable in a Lean `Char` — is idealized as U+FFFD. -/
def charOfScalar (n : Nat) : Char :=
  if 55296 ≤ n ∧ n ≤ 57343 then '�' else Char.ofNat n

/-- The single-character JSON string escapes. -/
def escMap (e : Char) : Option Char :=
  if e = '"' then some '"'
  else if e = '\\' then some '\\'
  else if e = '/' then some '/'
  else if e = 'b' then some '\u0008'
  else if e = 'f' then some '\u000C'
  else if e = 'n' then some '\n'
  else if e = 'r' then some '\r'
  else if e = 't' then some '\t'
  else none

/-- Body of a JSON string literal after the opening quote (CPython strict
mode): raw control characters are rejected, escapes are decoded, and a
`\uXXXX` high surrogate immediately followed by a `\uXXXX` low surrogate is
combined into one code point. -/
def parseStrAux : Nat → List Char → Option (List Char × List Char)
  | 0, _ => none
  | _, [] => none
  | fuel + 1, c :: rest =>
    if c = '"' then some ([], rest)
    else if c = '\\' then
      match rest with
      | [] => none
      | e :: rest2 =>
        if e = 'u' then
          match parseHex4 rest2 with
          | none => none
          | some (n, rest3) =>
            if 55296 ≤ n ∧ n ≤ 56319 then
              match rest3 with
              | '\\' :: 'u' :: rest4 =>
                match parseHex4 rest4 with
                | some (m, rest5) =>
                  if 56320 ≤ m ∧ m ≤ 57343 then
                    (parseStrAux fuel rest5).map
                      (fun p => (charOfScalar (65536 + (n - 55296) * 1024 + (m - 56320)) :: p.1, p.2))
                  else (parseStrAux fuel rest3).map (fun p => (charOfScalar n :: p.1, p.2))
                | none => (parseStrAux fuel rest3).map (fun p => (charOfScalar n :: p.1, p.2))
              | _ => (parseStrAux fuel rest3).map (fun p => (charOfScalar n :: p.1, p.2))
            else
              (parseStrAux fuel rest3).map (fun p => (charOfScalar n :: p.1, p.2))
        else
          match escMap e with
          | some ec => (parseStrAux fuel rest2).map (fun p => (ec :: p.1, p.2))
          | none => none
    else if c.toNat < 32 then none
    else (parseStrAux fuel rest).map (fun p => (c :: p.1, p.2))

/-- Numeric value of a digit string. -/
def natOfDigits (ds : List Char) : Nat :=
  ds.foldl (fun n c => n * 10 + (c.toNat - 48)) 0

/-- The optional exponent part `[eE][+-]?digits`; when the digits are missing
the regex match simply stops, consuming nothing. -/
def parseExp (cs : List Char) : Int × Bool × List Char :=
  match cs with
  | e :: t =>
    if e = 'e' ∨ e = 'E' then
      let (esign, t1) :=
        match t with
        | '+' :: u => ((1 : Int), u)
        | '-' :: u => ((-1 : Int), u)
        | _ => ((1 : Int), t)
      let ds := t1.takeWhile (fun c => c.isDigit)
      if ds.isEmpty then (0, false, cs)
      else (esign * Int.ofNat (natOfDigits ds), true, t1.dropWhile (fun c => c.isDigit))
    else (0, false, cs)
  | [] => (0, false, cs)

/-- The number grammar of the scanner's NUMBER_RE:
`-?(0|[1-9]\d*)(\.\d+)?([eE][+-]?\d+)?`, greedy, consuming as much as the
regex matches and no more.  The value is the exact rational (Python's
IEEE-754 rounding is idealized away); the flag records whether a fraction or
exponent part made it a float. -/
def parseNumber (cs : List Char) : Option (JValue × List Char) :=
  let p : Bool × List Char :=
    match cs with
    | '-' :: t => (true, t)
    | _ => (false, cs)
  match p.2 with
  | [] => none
  | d :: t =>
    if ¬ d.isDigit then none
    else
      let ipr : List Char × List Char :=
        if d = '0' then (([d] : List Char), t)
        else (p.2.takeWhile (fun c => c.isDigit), p.2.dropWhile (fun c => c.isDigit))
      let fdr : List Char × List Char :=
        match ipr.2 with
        | '.' :: u =>
          let f := u.takeWhile (fun c => c.isDigit)
          if f.isEmpty then (([] : List Char), ipr.2)
          else (f, u.dropWhile (fun c => c.isDigit))
        | _ => (([] : List Char), ipr.2)
      let er := parseExp fdr.2
      let scale := 10 ^ fdr.1.length
      let units := natOfDigits ipr.1 * scale + natOfDigits fdr.1
      let magnitude : ℚ :=
        if 0 ≤ er.1 then mkRat (Int.ofNat (units * 10 ^ er.1.toNat)) scale
        else mkRat (Int.ofNat units) (scale * 10 ^ (- er.1).toNat)
      some (.jnum (if p.1 then - magnitude else magnitude) (!fdr.1.isEmpty || er.2.1), er.2.2)

/-- Python dict item assignment on an ordered association list: overwrite in
place when the key exists, append otherwise. -/
def objInsert (es : Store) (k : String) (v : JValue) : Store :=
  if es.any (fun e => e.1 == k) then
    es.map (fun e => if e.1 == k then (k, v) else e)
  else es ++ [(k, v)]

/-- Strip an expected literal, as the scanner does for `null`, `true`, …. -/
def stripPfx : List Char → List Char → Option (List Char)
  | [], cs => some cs
  | _, [] => none
  | q :: qs, c :: cs => if c = q then stripPfx qs cs else none

mutual

/-- One JSON value at the current position (whitespace already skipped),
mirroring the scanner's scan_once dispatch. -/
def parseVal : Nat → List Char → Option (JValue × List Char)
  | 0, _ => none
  | _ + 1, [] => none
  | fuel + 1, c :: rest =>
    if c = '"' then
      (parseStrAux (rest.length + 1) rest).map (fun q => (.jstr (String.mk q.1), q.2))
    else if c = '\u007B' then parseObjFirst fuel (skipWs rest)
    else if c = '[' then parseArrFirst fuel (skipWs rest)
    else if c = 'n' then (stripPfx ['u', 'l', 'l'] rest).map (fun r => (.jnull, r))
    else if c = 't' then (stripPfx ['r', 'u', 'e'] rest).map (fun r => (.jbool true, r))
    else if c = 'f' then (stripPfx ['a', 'l', 's', 'e'] rest).map (fun r => (.jbool false, r))
    else if c = 'N' then (stripPfx ['a', 'N'] rest).map (fun r => (.jnan, r))
    else if c = 'I' then (stripPfx "nfinity".data rest).map (fun r => (.jinf, r))
    else if c = '-' then
      match parseNumber (c :: rest) with
      | some q => some q
      | none => (stripPfx "Infinity".data rest).map (fun r => (.jninf, r))
    else if c.isDigit then parseNumber (c :: rest)
    else none

/-- Object body directly after the opening brace (whitespace skipped): either
an immediate closing brace or a member list. -/
def parseObjFirst : Nat → List Char → Option (JValue × List Char)
  | 0, _ => none
  | _ + 1, [] => none
  | fuel + 1, c :: rest =>
    if c = '\u007D' then some (.jobj [], rest)
    else parseObjMembers fuel [] (c :: rest)

/-- Members of an object: `"key" : value` pairs separated by commas, built
with dict semantics (duplicate keys overwrite in place). -/
def parseObjMembers : Nat → Store → List Char → Option (JValue × List Char)
  | 0, _, _ => none
  | fuel + 1, acc, cs =>
    match cs with
    | '"' :: rest =>
      match parseStrAux (rest.length + 1) rest with
      | none => none
      | some (kcs, r1) =>
        match skipWs r1 with
        | ':' :: r2 =>
          match parseVal fuel (skipWs r2) with
          | none => none
          | some (v, r3) =>
            match skipWs r3 with
            | ',' :: r4 => parseObjMembers fuel (objInsert acc (String.mk kcs) v) (skipWs r4)
            | '\u007D' :: r4 => some (.jobj (objInsert acc (String.mk kcs) v), r4)
            | _ => none
        | _ => none
    | _ => none

/-- Array body directly after the opening bracket (whitespace skipped). -/
def parseArrFirst : Nat → List Char → Option (JValue × List Char)
  | 0, _ => none
  | _ + 1, [] => none
  | fuel + 1, c :: rest =>
    if c = ']' then some (.jarr [], rest)
    else parseArrElems fuel [] (c :: rest)

/-- Elements of an array, separated by commas. -/
def parseArrElems : Nat → List JValue → List Char → Option (JValue × List Char)
  | 0, _, _ => none
  | fuel + 1, acc, cs =>
    match parseVal fuel cs with
    | none => none
    | some (v, r1) =>
      match skipWs r1 with
      | ',' :: r2 => parseArrElems fuel (acc ++ [v]) (skipWs r2)
      | ']' :: r2 => some (.jarr (acc ++ [v]), r2)
      | _ => none

end

/-- `json.loads`: skip leading whitespace, scan one value, reject trailing
non-whitespace ("Extra data"); every JSONDecodeError becomes `none`.  The
fuel bound of three steps per character strictly dominates the recursion
depth, so the fuel never runs out on any input. -/
def json_loads (s : String) : Option JValue :=
  match parseVal (3 * s.data.length + 3) (skipWs s.data) with
  | some (v, rest) => if (skipWs rest).isEmpty then some v else none
  | none => none

/-- The characters stripped by Python's `str.strip()` (`str.isspace`). -/
def pyIsSpace (c : Char) : Bool :=
  ([9, 10, 11, 12, 13, 28, 29, 30, 31, 32, 133, 160, 5760,
    8192, 8193, 8194, 8195, 8196, 8197, 8198, 8199, 8200, 8201, 8202,
    8232, 8233, 8239, 8287, 12288] : List Nat).contains c.toNat

/-- Python `str.strip()`. -/
def pyStrip (s : String) : String :=
  String.mk (((s.data.dropWhile pyIsSpace).reverse.dropWhile pyIsSpace).reverse)

/-- Python `str.find`: code-point index of the first occurrence, if any. -/
def pyFind (cs : List Char) (t : Char) : Option Nat :=
  cs.findIdx? (fun c => c == t)

/-- Python `str.rfind`: code-point index of the last occurrence, if any. -/
def pyRFind (cs : List Char) (t : Char) : Option Nat :=
  match cs.reverse.findIdx? (fun c => c == t) with
  | some i => some (cs.length - 1 - i)
  | none => none

/-- The response-extraction step of `translate_chunk` (lines 105-116): strip
the accumulated text, slice from the first opening brace through the last
closing brace when both exist, then `json.loads` the result, turning a
JSONDecodeError into `none`. -/
def extract_json (resp : String) : Option JValue :=
  json_loads (String.mk
    (match pyFind (pyStrip resp).data '\u007B', pyRFind (pyStrip resp).data '\u007D' with
      | some i1, some i2 => ((pyStrip resp).data.drop i1).take (i2 + 1 - i1)
      | _, _ => (pyStrip resp).data))

/-- The state of one input file as seen by `translate_text`: missing,
readable with the given text, or present but raising on `open`/`read`
(permission error or bytes that do not decode as UTF-8 — both escape the
`except json.JSONDecodeError` handler). -/
inductive FileState where
  | absent
  | unreadable
  | readable (content : String)

/-- The observable outcome of `translate_text` (lines 119-188): `err` is the
`-1` return (failure, no output written), `exc` an uncaught exception
escaping the function, `ok merged` the success path, which writes `merged`
to the output file and returns the elapsed time. -/
inductive TransResult where
  | err
  | exc
  | ok (merged : Store)

/-- `dict.update` (line 178): fold the new mapping into the accumulator with
Python dict assignment semantics. -/
def dict_update (d u : Store) : Store :=
  u.foldl (fun acc kv => objInsert acc kv.1 kv.2) d

/-- A provider models one `translate_chunk` round trip at its contract: the
parsed mapping of the response on success, `none` on a network, stream or
decode failure (`translate_chunk` returning `None`). -/
abbrev Provider := Store → Option Store

/-- The chunk loop of `translate_text` (lines 168-179): translate the chunks
in order, merging each successful result, returning `-1` (here `none`) on
the first failed chunk.  The second component counts the provider requests
actually made. -/
def translate_chunks_loop (pr : Provider) : List Store → Store → Option Store × Nat
  | [], translated_data => (some translated_data, 0)
  | chunk :: rest, translated_data =>
    match pr chunk with
    | none => (none, 1)
    | some result =>
      let p := translate_chunks_loop pr rest (dict_update translated_data result)
      (p.1, p.2 + 1)

/-- Chunk selection of `translate_text` (lines 149-159): split only when the
stripped file content exceeds `MAX_CHUNK_SIZE_MB`, else one implicit chunk. -/
def chunks_of (content : String) (data : Store) : List Store :=
  if estimate_text_size_mb content > MAX_CHUNK_SIZE_MB then
    split_json_into_chunks data MAX_CHUNK_SIZE_MB
  else [data]

/-- `translate_text` (trans-vi.py lines 119-188) over a file state and a
provider.  Returns the outcome together with the number of provider
requests made.  The existence check precedes reading; reading a stripped
empty file, a JSON parse error, and a non-dict top level each return `-1`
before any chunking; an unreadable file raises out of the function (only
`json.JSONDecodeError` is caught). -/
def translate_text_content (raw : String) (pr : Provider) : TransResult × Nat :=
  if pyStrip raw = "" then (.err, 0)
  else
    match json_loads (pyStrip raw) with
    | none => (.err, 0)
    | some (.jobj data) =>
      match translate_chunks_loop pr (chunks_of (pyStrip raw) data) [] with
      | (none, n) => (.err, n)
      | (some merged, n) => (.ok merged, n)
    | some _ => (.err, 0)

def translate_text (st : FileState) (pr : Provider) : TransResult × Nat :=
  match st with
  | .absent => (.err, 0)
  | .unreadable => (.exc, 0)
  | .readable raw => translate_text_content raw pr

/-- The per-file loop of the main block (lines 220-242): run
`translate_text` on each file; a `-1` increments the failure counter and the
loop continues; a success increments the success counter; an uncaught
exception aborts the whole run (modelled as `none`).  The second component
counts the files on which `translate_text` was invoked. -/
def process_files (fs : String → FileState) (pr : Provider) :
    List String → Option (Nat × Nat) × Nat
  | [] => (some (0, 0), 0)
  | file :: rest =>
    match (translate_text (fs file) pr).1 with
    | .exc => (none, 1)
    | .err =>
      let p := process_files fs pr rest
      ((p.1.map fun sf => (sf.1, sf.2 + 1)), p.2 + 1)
    | .ok _ =>
      let p := process_files fs pr rest
      ((p.1.map fun sf => (sf.1 + 1, sf.2)), p.2 + 1)

/-- Python `f.endswith(".json")`, on code points. -/
def endsWithJson (f : String) : Bool :=
  ".json".data.isSuffixOf f.data

/-- The eligible input files (line 202): names ending in `.json`. -/
def eligible (entries : List String) : List String :=
  entries.filter endsWithJson

/-- The process exit status of the main block (lines 202-253): `1` when no
eligible file exists, else `1` when any file failed, else `0`; `none` when an
uncaught exception aborted the run (Python dies with a traceback). -/
def main_exit_status (fs : String → FileState) (pr : Provider)
    (entries : List String) : Option Nat :=
  let files := eligible entries
  if files.isEmpty then some 1
  else
    match (process_files fs pr files).1 with
    | none => none
    | some sf => some (if 0 < sf.2 then 1 else 0)

/-- The input conditions of claim C7 that `translate_text` turns into the
`-1` return: missing file, empty (stripped) content, JSON that fails to
parse, or a top level that is not a dict. -/
def input_error (st : FileState) : Prop :=
  st = .absent ∨
    ∃ c, st = .readable c ∧
      (pyStrip c = "" ∨ json_loads (pyStrip c) = none ∨
        ∃ v, json_loads (pyStrip c) = some v ∧ ∀ m, v ≠ JValue.jobj m)

lemma utf8Len_append (a b : String) : utf8Len (a ++ b) = utf8Len a + utf8Len b := by
  simp [utf8Len, String.data_append]

lemma itemSize_nonneg (e : String × JValue) : 0 ≤ itemSize e := by
  unfold itemSize
  rw [estimate_text_size_mb_eq]
  positivity

lemma chunkSizeSum_cons (e : String × JValue) (c : Store) :
    chunkSizeSum (e :: c) = itemSize e + chunkSizeSum c := by
  simp [chunkSizeSum]

lemma chunkSizeSum_append_single (c : Store) (e : String × JValue) :
    chunkSizeSum (c ++ [e]) = chunkSizeSum c + itemSize e := by
  simp [chunkSizeSum]

lemma chunkSizeSum_nonneg (c : Store) : 0 ≤ chunkSizeSum c := by
  refine List.sum_nonneg ?_
  intro x hx
  obtain ⟨e, _, rfl⟩ := List.mem_map.mp hx
  exact itemSize_nonneg e

lemma dumpsObj_cons₂ (e f : String × JValue) (rest : Store) :
    dumpsObj (e :: f :: rest) = dumpsObj [e] ++ ", " ++ dumpsObj (f :: rest) := by
  obtain ⟨k, v⟩ := e
  simp [dumpsObj, String.append_assoc]

lemma utf8Len_dumpsObj (es : Store) (h : es ≠ []) :
    utf8Len (dumpsObj es) + 2 = (es.map (fun e => utf8Len (dumpsObj [e]) + 2)).sum := by
  induction es with
  | nil => cases h rfl
  | cons e rest ih =>
    cases rest with
    | nil => simp
    | cons f rest2 =>
      rw [dumpsObj_cons₂, utf8Len_append, utf8Len_append]
      have h2 := ih (by simp)
      have hc : utf8Len ", " = 2 := rfl
      simp only [List.map_cons, List.sum_cons] at h2 ⊢
      omega

lemma estimate_jobj (es : Store) :
    estimate_text_size_mb (dumps (.jobj es)) =
      ((utf8Len (dumpsObj es) + 2 : ℕ) : ℚ) / (1024 * 1024) := by
  have hd : dumps (.jobj es) = "\x7b" ++ dumpsObj es ++ "\x7d" := rfl
  have h1 : utf8Len "\x7b" = 1 := rfl
  have h2 : utf8Len "\x7d" = 1 := rfl
  rw [estimate_text_size_mb_eq, hd, utf8Len_append, utf8Len_append, h1, h2]
  norm_num
  ring_nf

lemma chunkSizeSum_eq_cast (c : Store) :
    chunkSizeSum c =
      ((c.map (fun e => utf8Len (dumpsObj [e]) + 2)).sum : ℚ) / (1024 * 1024) := by
  induction c with
  | nil => simp [chunkSizeSum]
  | cons e rest ih =>
    rw [chunkSizeSum_cons, ih]
    have he : itemSize e = ((utf8Len (dumpsObj [e]) + 2 : ℕ) : ℚ) / (1024 * 1024) :=
      estimate_jobj [e]
    rw [he]
    simp only [List.map_cons, List.sum_cons]
    push_cast
    ring

/-- For a nonempty chunk, the estimated serialized size of the whole chunk
equals the sum of its entries' standalone sizes (the separators `", "`
account exactly for the braces of the dropped singleton wrappers). -/
lemma estimate_jobj_eq_chunkSizeSum (c : Store) (h : c ≠ []) :
    estimate_text_size_mb (dumps (.jobj c)) = chunkSizeSum c := by
  rw [estimate_jobj, chunkSizeSum_eq_cast, utf8Len_dumpsObj c h]

lemma splitGo_flatten (m : ℚ) :
    ∀ (l : List (String × JValue)) (cur : Store) (sz : ℚ),
      (splitGo m l cur sz).flatten = cur ++ l.filter (fun e => decide (itemSize e ≤ m)) := by
  intro l
  induction l with
  | nil =>
    intro cur sz
    by_cases h : cur.isEmpty
    · rw [List.isEmpty_iff] at h
      simp [splitGo, h]
    · simp only [splitGo]
      rw [if_neg (by simpa using h)]
      simp
  | cons e rest ih =>
    intro cur sz
    by_cases h1 : itemSize e > m
    · have hf : (decide (itemSize e ≤ m)) = false := by
        simpa using not_le.mpr h1
      simp only [splitGo, if_pos h1, List.filter_cons, hf]
      exact ih cur sz
    · have hf : (decide (itemSize e ≤ m)) = true := by
        simpa using not_lt.mp h1
      by_cases h2 : sz + itemSize e > m ∧ cur.isEmpty = false
      · simp only [splitGo, if_neg h1, if_pos h2, List.flatten_cons, List.filter_cons, hf]
        rw [ih]
        simp
      · simp only [splitGo, if_neg h1, if_neg h2, List.filter_cons, hf]
        rw [ih]
        simp

lemma splitGo_sizes (m : ℚ) :
    ∀ (l : List (String × JValue)) (cur : Store) (sz : ℚ),
      sz = chunkSizeSum cur → sz ≤ m →
      ∀ c ∈ splitGo m l cur sz, chunkSizeSum c ≤ m := by
  intro l
  induction l with
  | nil =>
    intro cur sz hsz hle c hc
    by_cases h : cur.isEmpty
    · simp [splitGo, h] at hc
    · simp only [splitGo] at hc
      rw [if_neg (by simpa using h)] at hc
      simp at hc
      subst hc
      exact hsz ▸ hle
  | cons e rest ih =>
    intro cur sz hsz hle c hc
    by_cases h1 : itemSize e > m
    · rw [splitGo, if_pos h1] at hc
      exact ih cur sz hsz hle c hc
    · by_cases h2 : sz + itemSize e > m ∧ cur.isEmpty = false
      · rw [splitGo, if_neg h1, if_pos h2] at hc
        rcases List.mem_cons.mp hc with rfl | hc2
        · exact hsz ▸ hle
        · refine ih [e] (itemSize e) (by simp [chunkSizeSum]) (not_lt.mp h1) c hc2
      · rw [splitGo, if_neg h1, if_neg h2] at hc
        have hbound : sz + itemSize e ≤ m := by
          rcases not_and_or.mp h2 with h3 | h3
          · exact not_lt.mp h3
          · have hcur : cur = [] := List.isEmpty_iff.mp (by simpa using h3)
            rw [hsz, hcur]
            simpa [chunkSizeSum] using not_lt.mp h1
        refine ih (cur ++ [e]) (sz + itemSize e) ?_ hbound c hc
        rw [chunkSizeSum_append_single, hsz]

lemma splitGo_ne_nil (m : ℚ) :
    ∀ (l : List (String × JValue)) (cur : Store) (sz : ℚ),
      ∀ c ∈ splitGo m l cur sz, c ≠ [] := by
  intro l
  induction l with
  | nil =>
    intro cur sz c hc
    by_cases h : cur.isEmpty
    · simp [splitGo, h] at hc
    · simp only [splitGo] at hc
      rw [if_neg (by simpa using h)] at hc
      simp at hc
      subst hc
      simpa [List.isEmpty_iff] using h
  | cons e rest ih =>
    intro cur sz c hc
    by_cases h1 : itemSize e > m
    · rw [splitGo, if_pos h1] at hc
      exact ih cur sz c hc
    · by_cases h2 : sz + itemSize e > m ∧ cur.isEmpty = false
      · rw [splitGo, if_neg h1, if_pos h2] at hc
        rcases List.mem_cons.mp hc with rfl | hc2
        · simpa [List.isEmpty_iff] using h2.2
        · exact ih [e] (itemSize e) c hc2
      · rw [splitGo, if_neg h1, if_neg h2] at hc
        exact ih (cur ++ [e]) (sz + itemSize e) c hc

lemma splitGo_single (m : ℚ) :
    ∀ (l : List (String × JValue)) (cur : Store) (sz : ℚ),
      0 ≤ sz → sz + chunkSizeSum l ≤ m →
      splitGo m l cur sz = if (cur ++ l).isEmpty then [] else [cur ++ l] := by
  intro l
  induction l with
  | nil =>
    intro cur sz _ _
    rw [List.append_nil]
    simp [splitGo]
  | cons e rest ih =>
    intro cur sz hsz hle
    rw [chunkSizeSum_cons] at hle
    have hrest : 0 ≤ chunkSizeSum rest := chunkSizeSum_nonneg rest
    have hitem : itemSize e ≤ m := by linarith [itemSize_nonneg e]
    have hsum : sz + itemSize e ≤ m := by linarith
    rw [splitGo, if_neg (not_lt.mpr hitem), if_neg (by
      rintro ⟨h3, _⟩
      exact absurd hsum (not_le.mpr h3))]
    rw [ih (cur ++ [e]) (sz + itemSize e) (by linarith [itemSize_nonneg e]) (by linarith)]
    simp

/-- C5 (amended): for every NONEMPTY record store whose total serialized
size is at most the budget, splitting returns exactly one chunk equal to the
whole store.  (The empty store instead yields no chunks — see the
counterexample.) -/
theorem split_single_chunk (S : Store) (B : ℚ) (hne : S ≠ [])
    (htot : estimate_text_size_mb (dumps (.jobj S)) ≤ B) :
    split_json_into_chunks S B = [S] := by
  have h0 : (0 : ℚ) + chunkSizeSum S ≤ B := by
    rw [zero_add, ← estimate_jobj_eq_chunkSizeSum S hne]
    exact htot
  show splitGo B S [] 0 = [S]
  rw [splitGo_single B S [] 0 le_rfl h0]
  simp [hne]

/-- C5 counterexample: the empty record store has total serialized size
(that of `\x7b\x7d`, two bytes) far below the 4 MB budget, yet
`split_json_into_chunks` returns no chunk at all rather than one chunk equal
to the whole (empty) input store. -/
theorem split_empty_store_counterexample :
    estimate_text_size_mb (dumps (.jobj [])) ≤ 4 ∧
      split_json_into_chunks ([] : Store) 4 = [] ∧
      split_json_into_chunks ([] : Store) 4 ≠ [([] : Store)] := by
  refine ⟨by decide, rfl, by simp [split_json_into_chunks, splitGo]⟩

/-- C5 witness: a one-entry store below the budget is returned as the single
chunk. -/
theorem split_single_chunk_witness :
    [(("a" : String), JValue.jstr "b")] ≠ ([] : Store) ∧
      estimate_text_size_mb (dumps (.jobj [("a", JValue.jstr "b")])) ≤ 4 ∧
      split_json_into_chunks [("a", JValue.jstr "b")] 4 = [[("a", JValue.jstr "b")]] :=
  ⟨by simp, by decide, split_single_chunk [("a", JValue.jstr "b")] 4 (by simp) (by decide)⟩

/-- C10: for a positive budget, every chunk produced by the splitter holds at
least one entry; the empty store yields an empty chunk sequence, and so does
a store all of whose entries are oversized. -/
theorem split_chunks_nonempty (S : Store) (B : ℚ) (hB : 0 < B) :
    (∀ c ∈ split_json_into_chunks S B, c ≠ []) ∧
      split_json_into_chunks ([] : Store) B = [] ∧
      ((∀ e ∈ S, itemSize e > B) → split_json_into_chunks S B = []) := by
  refine ⟨fun c hc => splitGo_ne_nil B S [] 0 c hc, rfl, fun hall => ?_⟩
  have hfilter : S.filter (fun e => decide (itemSize e ≤ B)) = [] := by
    rw [List.filter_eq_nil_iff]
    intro e he
    simpa using not_le.mpr (hall e he)
  have hflat : (split_json_into_chunks S B).flatten = [] := by
    show (splitGo B S [] 0).flatten = []
    rw [splitGo_flatten, hfilter]
    rfl
  have hforall := List.flatten_eq_nil_iff.mp hflat
  cases hsplit : split_json_into_chunks S B with
  | nil => rfl
  | cons c rest =>
    have hc : c ≠ [] := splitGo_ne_nil B S [] 0 c (by
      show c ∈ split_json_into_chunks S B
      rw [hsplit]
      exact List.mem_cons_self c rest)
    exact absurd (hforall c (by rw [hsplit]; exact List.mem_cons_self c rest)) hc

/-- C10 witness. -/
theorem split_chunks_nonempty_witness :
    (0 : ℚ) < 4 ∧
      ((∀ c ∈ split_json_into_chunks [(("a" : String), JValue.jstr "b")] 4, c ≠ []) ∧
        split_json_into_chunks ([] : Store) 4 = [] ∧
        ((∀ e ∈ [(("a" : String), JValue.jstr "b")], itemSize e > 4) →
          split_json_into_chunks [(("a" : String), JValue.jstr "b")] 4 = [])) :=
  ⟨by norm_num, split_chunks_nonempty [("a", JValue.jstr "b")] 4 (by norm_num)⟩

/-- C1: for a positive budget and a store with unique keys, the chunks
produced by `split_json_into_chunks` concatenate (in order) to exactly the
non-oversized entries of the store; every chunk's estimated serialized size
is at most the budget; every oversized entry is excluded from all chunks;
every non-oversized entry is placed in some chunk; and distinct chunks have
disjoint key sets. -/
theorem split_json_into_chunks_spec (S : Store) (B : ℚ) (hB : 0 < B)
    (hnd : (S.map Prod.fst).Nodup) :
    (split_json_into_chunks S B).flatten = S.filter (fun e => decide (itemSize e ≤ B)) ∧
      (∀ c ∈ split_json_into_chunks S B,
        estimate_text_size_mb (dumps (.jobj c)) ≤ B) ∧
      (∀ e ∈ S, itemSize e > B → ∀ c ∈ split_json_into_chunks S B, e ∉ c) ∧
      (∀ e ∈ S, itemSize e ≤ B → ∃ c ∈ split_json_into_chunks S B, e ∈ c) ∧
      ((split_json_into_chunks S B).map (List.map Prod.fst)).Pairwise List.Disjoint := by
  have hflat : (split_json_into_chunks S B).flatten =
      S.filter (fun e => decide (itemSize e ≤ B)) := by
    show (splitGo B S [] 0).flatten = _
    rw [splitGo_flatten]
    rfl
  have hsizes : ∀ c ∈ split_json_into_chunks S B,
      estimate_text_size_mb (dumps (.jobj c)) ≤ B := by
    intro c hc
    have hne : c ≠ [] := splitGo_ne_nil B S [] 0 c hc
    rw [estimate_jobj_eq_chunkSizeSum c hne]
    exact splitGo_sizes B S [] 0 (by simp [chunkSizeSum]) hB.le c hc
  refine ⟨hflat, hsizes, ?_, ?_, ?_⟩
  · intro e _ hbig c hc hec
    have hmem : e ∈ (split_json_into_chunks S B).flatten :=
      List.mem_flatten.mpr ⟨c, hc, hec⟩
    rw [hflat] at hmem
    have := (List.mem_filter.mp hmem).2
    simp at this
    exact absurd hbig (not_lt.mpr this)
  · intro e he hsmall
    have hmem : e ∈ (split_json_into_chunks S B).flatten := by
      rw [hflat]
      exact List.mem_filter.mpr ⟨he, by simpa using hsmall⟩
    exact List.mem_flatten.mp hmem
  · have hkeys : ((split_json_into_chunks S B).flatten.map Prod.fst).Nodup := by
      rw [hflat]
      exact hnd.sublist ((List.filter_sublist S).map Prod.fst)
    rw [List.map_flatten] at hkeys
    exact (List.nodup_flatten.mp hkeys).2

/-- C1 witness: a two-entry store with a 4 MB budget. -/
theorem split_json_into_chunks_spec_witness :
    (0 : ℚ) < 4 ∧
      ([(("a" : String), JValue.jstr "b"), (("c" : String), JValue.jstr "d")].map
        Prod.fst).Nodup ∧
      ((split_json_into_chunks
            [(("a" : String), JValue.jstr "b"), (("c" : String), JValue.jstr "d")]
            4).flatten =
        [(("a" : String), JValue.jstr "b"), (("c" : String), JValue.jstr "d")].filter
          (fun e => decide (itemSize e ≤ 4)) ∧
        (∀ c ∈ split_json_into_chunks
            [(("a" : String), JValue.jstr "b"), (("c" : String), JValue.jstr "d")] 4,
          estimate_text_size_mb (dumps (.jobj c)) ≤ 4) ∧
        (∀ e ∈ [(("a" : String), JValue.jstr "b"), (("c" : String), JValue.jstr "d")],
          itemSize e > 4 →
            ∀ c ∈ split_json_into_chunks
                [(("a" : String), JValue.jstr "b"), (("c" : String), JValue.jstr "d")] 4,
              e ∉ c) ∧
        (∀ e ∈ [(("a" : String), JValue.jstr "b"), (("c" : String), JValue.jstr "d")],
          itemSize e ≤ 4 →
            ∃ c ∈ split_json_into_chunks
                [(("a" : String), JValue.jstr "b"), (("c" : String), JValue.jstr "d")] 4,
              e ∈ c) ∧
        ((split_json_into_chunks
              [(("a" : String), JValue.jstr "b"), (("c" : String), JValue.jstr "d")]
              4).map (List.map Prod.fst)).Pairwise List.Disjoint) :=
  ⟨by norm_num, by decide,
    split_json_into_chunks_spec
      [("a", JValue.jstr "b"), ("c", JValue.jstr "d")] 4 (by norm_num) (by decide)⟩

lemma pyFind_eq_none (cs : List Char) (t : Char) (h : t ∉ cs) : pyFind cs t = none := by
  unfold pyFind
  rw [List.findIdx?_eq_none_iff]
  intro c hc
  simp only [beq_eq_false_iff_ne, ne_eq]
  rintro rfl
  exact h hc

lemma pyRFind_eq_none (cs : List Char) (t : Char) (h : t ∉ cs) : pyRFind cs t = none := by
  unfold pyRFind
  rw [List.findIdx?_eq_none_iff.mpr]
  intro c hc
  simp only [beq_eq_false_iff_ne, ne_eq]
  rintro rfl
  exact h (List.mem_reverse.mp hc)

lemma string_mk_data (s : String) : String.mk s.data = s := rfl

/-- C3 (amended): on a response whose stripped text lacks an opening brace
or lacks a closing brace, the extractor performs no slicing and returns
exactly `json.loads` of the stripped text — a typed failure (`None`)
whenever that text is not valid JSON, and never an uncaught exception; but
when the brace-free text happens to be valid JSON, the extractor returns
that decoded value even though it is not a key-to-value mapping. -/
theorem extract_json_no_brace (resp : String)
    (h : '{' ∉ (pyStrip resp).data ∨ '}' ∉ (pyStrip resp).data) :
    extract_json resp = json_loads (pyStrip resp) := by
  unfold extract_json
  rcases h with h | h
  · rw [pyFind_eq_none _ _ h]
  · rw [pyRFind_eq_none _ _ h]
    rcases hf : pyFind (pyStrip resp).data '{' with _ | i1 <;> rfl

/-- C3 counterexample: the response `"3"` contains no brace at all, yet the
extractor does not fail with a decode error — `json.loads` succeeds on the
whole stripped text and the extractor returns the number 3, a successful
result that is not a key-to-value mapping (the caller's `dict.update` would
then raise on it). -/
theorem extract_json_no_brace_counterexample :
    '{' ∉ ("3" : String).data ∧ '}' ∉ ("3" : String).data ∧
      extract_json "3" = some (JValue.jnum 3 false) ∧ extract_json "3" ≠ none := by
  refine ⟨by decide, by decide, rfl, ?_⟩
  intro h
  rw [show extract_json "3" = some (JValue.jnum 3 false) from rfl] at h
  exact Option.noConfusion h

/-- C3 witness: a brace-free response that is not valid JSON is a typed
decode failure. -/
theorem extract_json_no_brace_witness :
    ('{' ∉ ("hello" : String).data ∨ '}' ∉ ("hello" : String).data) ∧
      extract_json "hello" = json_loads (pyStrip "hello") ∧
      json_loads (pyStrip "hello") = none :=
  ⟨Or.inl (by decide), extract_json_no_brace "hello" (Or.inl (by decide)), rfl⟩

/-- C4: whenever the slice of the stripped response text from the first
opening brace through the last closing brace decodes as a key-to-value
mapping, the extractor returns exactly that mapping. -/
theorem extract_json_brace_slice (resp : String) (i1 i2 : Nat) (m : Store)
    (h1 : pyFind (pyStrip resp).data '{' = some i1)
    (h2 : pyRFind (pyStrip resp).data '}' = some i2)
    (h3 : json_loads
        (String.mk (((pyStrip resp).data.drop i1).take (i2 + 1 - i1))) =
      some (.jobj m)) :
    extract_json resp = some (.jobj m) := by
  unfold extract_json
  rw [h1, h2]
  exact h3

/-- C4 witness: the extractor is the identity on the already-clean mapping
text and strips prose/code-fence wrapping. -/
theorem extract_json_brace_slice_witness :
    extract_json "\x7b\"a\":\"b\"\x7d" = some (.jobj [("a", JValue.jstr "b")]) ∧
      extract_json "Sure! ```json\n\x7b\"a\":\"b\"\x7d\n```" =
        some (.jobj [("a", JValue.jstr "b")]) :=
  ⟨extract_json_brace_slice _ 0 8 _ rfl rfl rfl,
    extract_json_brace_slice _ 14 22 _ rfl rfl rfl⟩

lemma translate_chunks_loop_first_failure (pr : Provider) :
    ∀ (chunks : List Store) (k : Nat) (ck : Store) (acc : Store),
      chunks[k]? = some ck →
      (∀ c ∈ chunks.take k, (pr c).isSome) →
      pr ck = none →
      translate_chunks_loop pr chunks acc = (none, k + 1) := by
  intro chunks
  induction chunks with
  | nil =>
    intro k ck acc hk
    simp at hk
  | cons c rest ih =>
    intro k ck acc hk hpre hfail
    cases k with
    | zero =>
      rw [List.getElem?_cons_zero] at hk
      injection hk with hk
      subst hk
      simp [translate_chunks_loop, hfail]
    | succ k2 =>
      have hc : (pr c).isSome := hpre c (by
        rw [List.take_succ_cons]
        exact List.mem_cons_self c _)
      obtain ⟨r, hr⟩ := Option.isSome_iff_exists.mp hc
      rw [List.getElem?_cons_succ] at hk
      have hpre2 : ∀ d ∈ rest.take k2, (pr d).isSome := by
        intro d hd
        refine hpre d ?_
        rw [List.take_succ_cons]
        exact List.mem_cons_of_mem c hd
      simp only [translate_chunks_loop, hr]
      rw [ih k2 ck (dict_update acc r) hk hpre2 hfail]

/-- C2: when the chunks of a readable input file translate successfully up
to a first failing chunk (0-based index `k`), `translate_text` makes exactly
`k + 1` provider requests — the chunks after the failing one are never sent
— and returns the `-1` failure outcome: the merges of the earlier successful
chunks are discarded with it, and no output file is written (the write at
line 182 is reached only on the `ok` outcome). -/
theorem translate_text_first_chunk_failure (raw : String) (pr : Provider)
    (data : Store) (k : Nat) (ck : Store)
    (hne : pyStrip raw ≠ "")
    (hp : json_loads (pyStrip raw) = some (.jobj data))
    (hk : (chunks_of (pyStrip raw) data)[k]? = some ck)
    (hpre : ∀ c ∈ (chunks_of (pyStrip raw) data).take k, (pr c).isSome)
    (hfail : pr ck = none) :
    translate_text (.readable raw) pr = (.err, k + 1) := by
  have hloop :=
    translate_chunks_loop_first_failure pr (chunks_of (pyStrip raw) data) k ck [] hk hpre hfail
  show translate_text_content raw pr = _
  unfold translate_text_content
  rw [if_neg hne, hp]
  simp only [hloop]

/-- C2 witness: a one-chunk file whose only provider call fails. -/
theorem translate_text_first_chunk_failure_witness :
    pyStrip "\x7b\"a\": \"b\"\x7d" ≠ "" ∧
      json_loads (pyStrip "\x7b\"a\": \"b\"\x7d") =
        some (.jobj [("a", JValue.jstr "b")]) ∧
      translate_text (.readable "\x7b\"a\": \"b\"\x7d") (fun _ => none) = (.err, 1) :=
  ⟨by decide, rfl,
    translate_text_first_chunk_failure "\x7b\"a\": \"b\"\x7d" (fun _ => none)
      [("a", JValue.jstr "b")] 0 [("a", JValue.jstr "b")]
      (by decide) rfl rfl (by simp) rfl⟩

/-- C7 (amended): a missing file, an empty (stripped) file, content that
fails to decode as JSON, or a decoded top level that is not a dict each make
`translate_text` return the `-1` failure with zero provider requests —
before any chunking — and the file loop counts the failure and continues
with the remaining files.  (An unreadable file is NOT in this class: it
raises instead — see the counterexample.) -/
theorem translate_text_input_error (st : FileState) (pr : Provider)
    (h : input_error st) :
    translate_text st pr = (.err, 0) ∧
      ∀ (fs : String → FileState) (file : String) (rest : List String),
        fs file = st →
        process_files fs pr (file :: rest) =
          ((process_files fs pr rest).1.map fun sf => (sf.1, sf.2 + 1),
            (process_files fs pr rest).2 + 1) := by
  have hmain : translate_text st pr = (.err, 0) := by
    rcases h with rfl | ⟨c, rfl, hc⟩
    · rfl
    · show translate_text_content c pr = _
      by_cases hemp : pyStrip c = ""
      · unfold translate_text_content
        rw [if_pos hemp]
      · rcases hc with hc | hc | ⟨v, hv, hvm⟩
        · exact absurd hc hemp
        · unfold translate_text_content
          rw [if_neg hemp, hc]
        · unfold translate_text_content
          rw [if_neg hemp, hv]
          cases v with
          | jobj m => exact absurd rfl (hvm m)
          | jnull => rfl
          | jbool b => rfl
          | jnum q f => rfl
          | jstr s => rfl
          | jarr xs => rfl
          | jnan => rfl
          | jinf => rfl
          | jninf => rfl
  refine ⟨hmain, fun fs file rest hfs => ?_⟩
  simp only [process_files, hfs, hmain]

/-- C7 witness: a missing file is counted and the batch moves on. -/
theorem translate_text_input_error_witness :
    input_error FileState.absent ∧
      translate_text FileState.absent (fun _ => none) = (.err, 0) ∧
      process_files (fun _ => FileState.absent) (fun _ => none) ["a.json"] =
        ((process_files (fun _ => FileState.absent) (fun _ => none) []).1.map
            fun sf => (sf.1, sf.2 + 1),
          (process_files (fun _ => FileState.absent) (fun _ => none) []).2 + 1) :=
  ⟨Or.inl rfl,
    (translate_text_input_error FileState.absent (fun _ => none) (Or.inl rfl)).1,
    (translate_text_input_error FileState.absent (fun _ => none) (Or.inl rfl)).2
      (fun _ => FileState.absent) "a.json" [] rfl⟩

/-- C7 counterexample: an unreadable input file does not transition to the
counted `Failed` (-1) outcome at all: `open`/`read` raises an error that the
`except json.JSONDecodeError` handler does not catch, so the exception
escapes `translate_text` (and aborts the batch — see the C6
counterexample). -/
theorem translate_text_unreadable_counterexample :
    translate_text FileState.unreadable (fun _ => none) = (.exc, 0) ∧
      TransResult.exc ≠ TransResult.err :=
  ⟨rfl, fun h => TransResult.noConfusion h⟩

lemma process_files_no_exc (fs : String → FileState) (pr : Provider) :
    ∀ (files : List String),
      (∀ file ∈ files, (translate_text (fs file) pr).1 ≠ .exc) →
      ∃ s f, process_files fs pr files = (some (s, f), files.length) ∧
        s + f = files.length ∧
        (0 < f ↔ ∃ file ∈ files, (translate_text (fs file) pr).1 = .err) := by
  intro files
  induction files with
  | nil =>
    intro _
    exact ⟨0, 0, rfl, rfl, by simp⟩
  | cons file rest ih =>
    intro hno
    obtain ⟨s, f, hpf, hsum, hiff⟩ := ih (fun d hd => hno d (List.mem_cons_of_mem file hd))
    rcases htr : (translate_text (fs file) pr).1 with _ | _ | m
    · refine ⟨s, f + 1, ?_, by simp only [List.length_cons]; omega, ?_⟩
      · simp only [process_files, htr, hpf]
        rfl
      · constructor
        · intro _
          exact ⟨file, List.mem_cons_self file rest, htr⟩
        · intro _
          omega
    · exact absurd htr (hno file (List.mem_cons_self file rest))
    · refine ⟨s + 1, f, ?_, by simp only [List.length_cons]; omega, ?_⟩
      · simp only [process_files, htr, hpf]
        rfl
      · rw [hiff]
        constructor
        · rintro ⟨d, hd, hderr⟩
          exact ⟨d, List.mem_cons_of_mem file hd, hderr⟩
        · rintro ⟨d, hd, hderr⟩
          rcases List.mem_cons.mp hd with rfl | hd2
          · rw [htr] at hderr
            exact absurd hderr (fun h => TransResult.noConfusion h)
          · exact ⟨d, hd2, hderr⟩

/-- C6 (amended): provided no eligible file makes `translate_text` raise an
uncaught exception (cf. the unreadable counterexample), the runner invokes
`translate_text` on every eligible file — per-file failures are counted and
never abort the run — the success and failure counters sum to the number of
eligible files, and the exit status is 1 exactly when there are no eligible
files or at least one file failed, and 0 otherwise. -/
theorem runner_processes_all (fs : String → FileState) (pr : Provider)
    (entries : List String)
    (hnoexc : ∀ file ∈ eligible entries, (translate_text (fs file) pr).1 ≠ .exc) :
    ∃ s f, process_files fs pr (eligible entries) =
        (some (s, f), (eligible entries).length) ∧
      s + f = (eligible entries).length ∧
      (0 < f ↔ ∃ file ∈ eligible entries, (translate_text (fs file) pr).1 = .err) ∧
      main_exit_status fs pr entries =
        some (if (eligible entries).isEmpty ∨ 0 < f then 1 else 0) := by
  obtain ⟨s, f, hpf, hsum, hiff⟩ := process_files_no_exc fs pr (eligible entries) hnoexc
  refine ⟨s, f, hpf, hsum, hiff, ?_⟩
  unfold main_exit_status
  by_cases hemp : (eligible entries).isEmpty
  · rw [if_pos hemp]
    simp [hemp]
  · rw [if_neg hemp]
    have hpf1 : (process_files fs pr (eligible entries)).1 = some (s, f) := by
      rw [hpf]
    rw [hpf1]
    simp [hemp]

/-- C6 witness: one eligible file that fails, one ineligible entry; the
failure is counted, the run completes, the exit status is 1. -/
theorem runner_processes_all_witness :
    (∀ file ∈ eligible ["a.json", "b.txt"],
      (translate_text ((fun _ => FileState.absent) file) (fun _ => none)).1 ≠ .exc) ∧
      ∃ s f,
        process_files (fun _ => FileState.absent) (fun _ => none)
            (eligible ["a.json", "b.txt"]) =
          (some (s, f), (eligible ["a.json", "b.txt"]).length) ∧
        s + f = (eligible ["a.json", "b.txt"]).length ∧
        (0 < f ↔ ∃ file ∈ eligible ["a.json", "b.txt"],
          (translate_text ((fun _ => FileState.absent) file) (fun _ => none)).1 = .err) ∧
        main_exit_status (fun _ => FileState.absent) (fun _ => none)
            ["a.json", "b.txt"] =
          some (if (eligible ["a.json", "b.txt"]).isEmpty ∨ 0 < f then 1 else 0) :=
  ⟨fun _ _ h => TransResult.noConfusion h,
    runner_processes_all (fun _ => FileState.absent) (fun _ => none)
      ["a.json", "b.txt"] (fun _ _ h => TransResult.noConfusion h)⟩

/-- C6 counterexample: with an unreadable first file the runner does not
process every eligible file: the uncaught exception aborts the run after the
first file — the second eligible file is never attempted, no counters are
produced, and the process dies with a traceback instead of the tallied exit
status. -/
theorem runner_unreadable_counterexample :
    (eligible ["a.json", "b.json"]).length = 2 ∧
      process_files
          (fun f => if f = "a.json" then FileState.unreadable
            else FileState.readable "\x7b\x7d")
          (fun _ => some []) (eligible ["a.json", "b.json"]) = (none, 1) ∧
      main_exit_status
          (fun f => if f = "a.json" then FileState.unreadable
            else FileState.readable "\x7b\x7d")
          (fun _ => some []) ["a.json", "b.json"] = none :=
  ⟨rfl, rfl, rfl⟩

/-- Every destination filename is either the `p<run>_<digits>.json` rename
(pattern matched and the rename differs from the original) or the
`t<run>_<original>` fallback. -/
lemma dest_filename_cases (run_at f : String) :
    (∃ ds, numSuffixMatch f.data = some ds ∧
      "p" ++ run_at ++ "_" ++ String.mk ds ++ ".json" ≠ f ∧
      dest_filename run_at f = "p" ++ run_at ++ "_" ++ String.mk ds ++ ".json") ∨
    dest_filename run_at f = "t" ++ run_at ++ "_" ++ f := by
  unfold dest_filename replace_filename_pattern
  rcases hm : numSuffixMatch f.data with _ | ds
  · right
    rw [if_pos rfl]
  · by_cases he : "p" ++ run_at ++ "_" ++ String.mk ds ++ ".json" = f
    · right
      rw [if_pos he]
    · left
      exact ⟨ds, rfl, he, by rw [if_neg he]⟩

/-- C8 (amended): when the numeric-suffix pattern matches AND the renamed
form differs from the original filename, the destination is
`p<run-identity>_<digits>.json`; otherwise — no match, or a renamed form
that happens to coincide with the original (see the counterexample) — the
destination is `t<run-identity>_<original-filename>`. -/
theorem dest_filename_spec (run_at filename : String)
    (heligible : endsWithJson filename = true) :
    (∀ ds, numSuffixMatch filename.data = some ds →
      ("p" ++ run_at ++ "_" ++ String.mk ds ++ ".json" ≠ filename →
        dest_filename run_at filename =
          "p" ++ run_at ++ "_" ++ String.mk ds ++ ".json") ∧
      ("p" ++ run_at ++ "_" ++ String.mk ds ++ ".json" = filename →
        dest_filename run_at filename = "t" ++ run_at ++ "_" ++ filename)) ∧
    (numSuffixMatch filename.data = none →
      dest_filename run_at filename = "t" ++ run_at ++ "_" ++ filename) := by
  constructor
  · intro ds hds
    constructor
    · intro hneq
      unfold dest_filename replace_filename_pattern
      rw [hds, if_neg hneq]
    · intro heq
      unfold dest_filename replace_filename_pattern
      rw [hds, if_pos heq]
  · intro hnone
    unfold dest_filename replace_filename_pattern
    rw [hnone, if_pos rfl]

/-- C8 counterexample: `p250461200_7.json` matches the `<name>_<digits>.json`
pattern, so the claim requires the destination `p250461200_7.json` under run
identity `250461200`; the code instead finds the renamed form equal to the
original and falls back to the `t`-prefixed name. -/
theorem dest_filename_counterexample :
    numSuffixMatch ("p250461200_7.json" : String).data = some ['7'] ∧
      dest_filename "250461200" "p250461200_7.json" =
        "t250461200_p250461200_7.json" ∧
      dest_filename "250461200" "p250461200_7.json" ≠ "p250461200_7.json" :=
  ⟨rfl, rfl, by decide⟩

/-- C8 witness: the two naming scenarios of the spec. -/
theorem dest_filename_spec_witness :
    endsWithJson "terms_001.json" = true ∧
      dest_filename "250461200" "terms_001.json" = "p250461200_001.json" ∧
      endsWithJson "notes.json" = true ∧
      dest_filename "250461200" "notes.json" = "t250461200_notes.json" :=
  ⟨by decide,
    ((dest_filename_spec "250461200" "terms_001.json" (by decide)).1
      ['0', '0', '1'] rfl).1 (by decide),
    by decide,
    (dest_filename_spec "250461200" "notes.json" (by decide)).2 rfl⟩

/-- C9 (amended): within one run, two distinct eligible source filenames
receive distinct destination filenames UNLESS both match the numeric-suffix
pattern with the same digit group — in that case the renamed destinations
can collide (see the counterexample). -/
theorem dest_filename_inj (run_at f1 f2 : String) (hne : f1 ≠ f2)
    (hel1 : endsWithJson f1 = true) (hel2 : endsWithJson f2 = true)
    (h : ¬ ∃ ds, numSuffixMatch f1.data = some ds ∧
      numSuffixMatch f2.data = some ds) :
    dest_filename run_at f1 ≠ dest_filename run_at f2 := by
  intro heq
  rcases dest_filename_cases run_at f1 with ⟨ds1, hm1, _, hd1⟩ | hd1 <;>
    rcases dest_filename_cases run_at f2 with ⟨ds2, hm2, _, hd2⟩ | hd2
  · rw [hd1, hd2] at heq
    have h' := congrArg String.data heq
    simp [String.data_append] at h'
    exact h ⟨ds1, hm1, by rw [show ds1 = ds2 from h'] at hm1 ⊢; exact hm2⟩
  · rw [hd1, hd2] at heq
    have h' := congrArg String.data heq
    simp [String.data_append] at h'
  · rw [hd1, hd2] at heq
    have h' := congrArg String.data heq
    simp [String.data_append] at h'
  · rw [hd1, hd2] at heq
    have h' := congrArg String.data heq
    simp [String.data_append] at h'
    exact hne (String.ext h')

/-- C9 counterexample: the distinct eligible filenames `a_001.json` and
`b_001.json` receive the same destination `p250461200_001.json`, so the
second file's output overwrites the first — the naming is not
collision-resistant within a run. -/
theorem dest_filename_collision_counterexample :
    ("a_001.json" : String) ≠ "b_001.json" ∧
      endsWithJson "a_001.json" = true ∧ endsWithJson "b_001.json" = true ∧
      dest_filename "250461200" "a_001.json" =
        dest_filename "250461200" "b_001.json" :=
  ⟨by decide, by decide, by decide, rfl⟩

/-- C9 witness: distinct filenames with distinct (or absent) digit groups
get distinct destinations. -/
theorem dest_filename_inj_witness :
    ("terms_001.json" : String) ≠ "notes.json" ∧
      dest_filename "250461200" "terms_001.json" ≠
        dest_filename "250461200" "notes.json" :=
  ⟨by decide,
    dest_filename_inj "250461200" "terms_001.json" "notes.json" (by decide)
      (by decide) (by decide)
      (by
        rintro ⟨ds, _, h2⟩
        rw [show numSuffixMatch ("notes.json" : String).data = none from rfl] at h2
        exact Option.noConfusion h2)⟩
